import Mathlib

/-!
Verification of the PAG reconciliation service (`src/main.py`).

The embedding models the dataframe-level logic of the service:

* an order line of the PAG sheet is a record with a part number
  (column `Part #` / `Material`), a cleaned purchasing document
  (`Purchasing Document` after `clean_po`, `none` when unparsable) and a
  nullable remaining quantity (`Qty remaining to deliver`, `none` models NaN);
* the repeated greedy downcount loop
  (`process_files` lines 164-181 and 230-246, `delta_report` lines 312-327,
  `run_all` lines 477-494, 537-553 and 577-592) becomes `downcountGroup`;
* quantities are rationals: the Python code computes on floats, and every
  operation it performs (comparison, subtraction, summation) is exact
  field arithmetic here;
* dates are integers (a timestamp ordinal); `none` models NaT.
-/

namespace PagApi

/-- One PAG order line: `Part #` (a.k.a. `Material`), `Purchasing Document`
after `clean_po` (`none` when `clean_po` returned `None`), and the nullable
`Qty remaining to deliver`. -/
structure OrderLine where
  part : String
  po : Option Int
  qty : Option ℚ
deriving DecidableEq

/-- A line matches a downcount group key exactly when the pandas mask
`(pag_df["Part #"] == part) & (pag_df["Purchasing Document"] == po)` selects
it; a `none` purchasing document never equals a group key. -/
abbrev matchesKey (part : String) (po : Int) (l : OrderLine) : Prop :=
  l.part = part ∧ l.po = some po

/-- The greedy downcount loop shared by every round of the service
(`main.py` lines 171-181, 236-246, 317-327, 484-494, 543-553, 582-592):
walk the lines in row order; a line that does not match the `(part, po)`
mask is untouched; once the remainder is `≤ 0` the loop breaks; a matching
line with non-null positive quantity is zeroed (when it fits in the
remainder) or reduced by the remainder (which then becomes `0`).
Returns the updated lines together with the final remainder. -/
def downcountGroup (part : String) (po : Int) : ℚ → List OrderLine → List OrderLine × ℚ
  | r, [] => ([], r)
  | r, l :: rest =>
    if l.part = part ∧ l.po = some po then
      if r ≤ 0 then (l :: rest, r)
      else
        match l.qty with
        | some available =>
          if 0 < available then
            if available ≤ r then
              let p := downcountGroup part po (r - available) rest
              ({ l with qty := some 0 } :: p.1, p.2)
            else
              ({ l with qty := some (available - r) } :: rest, 0)
          else
            let p := downcountGroup part po r rest
            (l :: p.1, p.2)
        | none =>
          let p := downcountGroup part po r rest
          (l :: p.1, p.2)
    else
      let p := downcountGroup part po r rest
      (l :: p.1, p.2)

/-- One key of the EBU / delta downcount rounds (`main.py` lines 231-246,
312-327, 538-553, 577-592): the requested quantity is used as is, and the
round is skipped when it is `≤ 0`. -/
def applyEbuDowncount (part : String) (po : Int) (q : ℚ) (ls : List OrderLine) :
    List OrderLine :=
  if q ≤ 0 then ls else (downcountGroup part po q ls).1

/-- One key of the shipment-log (step 1) round (`main.py` lines 165-181 and
478-494): the quantity removed is `abs(total_shipped)`, and the round is
skipped when that absolute value is `≤ 0`, i.e. exactly when the summed
`Total général` is `0`. -/
def applyStep1 (part : String) (po : Int) (totalShipped : ℚ) (ls : List OrderLine) :
    List OrderLine :=
  if |totalShipped| ≤ 0 then ls else (downcountGroup part po |totalShipped| ls).1

/-- A whole EBU-style downcount pass: fold the per-key round over the entries
of the quantity-to-remove mapping, in iteration order. -/
def downcountPass (m : List ((String × Int) × ℚ)) (ls : List OrderLine) :
    List OrderLine :=
  m.foldl (fun acc kq => applyEbuDowncount kq.1.1 kq.1.2 kq.2 acc) ls

/-- A whole step-1 downcount pass over the `shipped_map` entries. -/
def step1Pass (m : List ((String × Int) × ℚ)) (ls : List OrderLine) :
    List OrderLine :=
  m.foldl (fun acc kq => applyStep1 kq.1.1 kq.1.2 kq.2 acc) ls

/-- Modelled from the spec's algorithm description (one line of §4.1):
given the remaining quantity to remove and a matching line's quantity,
a positive quantity is zeroed and subtracted from the remainder when it is
at most the remainder, otherwise it is reduced by the remainder which
becomes `0`; null or non-positive quantities are left alone. -/
def specAlloc (r : ℚ) (q : Option ℚ) : Option ℚ × ℚ :=
  match q with
  | some a =>
    if 0 < a then
      if a ≤ r then (some 0, r - a) else (some (a - r), 0)
    else (some a, r)
  | none => (none, r)

/-- Modelled from the spec's algorithm description (§4.1): iterate the lines
in original row order, threading the remainder through the matching lines
with `specAlloc` and skipping the others. -/
def specDowncount (part : String) (po : Int) : ℚ → List OrderLine → List OrderLine
  | _, [] => []
  | r, l :: rest =>
    if l.part = part ∧ l.po = some po then
      let p := specAlloc r l.qty
      { l with qty := p.1 } :: specDowncount part po p.2 rest
    else
      l :: specDowncount part po r rest

lemma specAlloc_zero (q : Option ℚ) : specAlloc 0 q = (q, 0) := by
  cases q with
  | none => rfl
  | some a =>
    simp only [specAlloc]
    by_cases ha : 0 < a
    · have : ¬ a ≤ 0 := not_le.mpr ha
      simp [ha, this]
    · simp [ha]

lemma specDowncount_zero (part : String) (po : Int) (ls : List OrderLine) :
    specDowncount part po 0 ls = ls := by
  induction ls with
  | nil => rfl
  | cons l rest ih =>
    simp only [specDowncount, specAlloc_zero, ih]
    split <;> rfl

lemma downcountGroup_eq_spec (part : String) (po : Int) :
    ∀ (ls : List OrderLine) (r : ℚ), 0 ≤ r →
      (downcountGroup part po r ls).1 = specDowncount part po r ls := by
  intro ls
  induction ls with
  | nil => intro r _; rfl
  | cons l rest ih =>
    intro r hr
    obtain ⟨lp, lpo, lq⟩ := l
    by_cases hm : lp = part ∧ lpo = some po
    · obtain ⟨rfl, rfl⟩ := hm
      by_cases hz : r ≤ 0
      · have hr0 : r = 0 := le_antisymm hz hr
        subst hr0
        simp [downcountGroup, specDowncount, specAlloc_zero, specDowncount_zero]
      · cases lq with
        | none =>
          simp [downcountGroup, specDowncount, hz, specAlloc, ih r hr]
        | some a =>
          by_cases ha : 0 < a
          · by_cases hle : a ≤ r
            · have : 0 ≤ r - a := sub_nonneg.mpr hle
              simp [downcountGroup, specDowncount, hz, specAlloc, ha, hle,
                ih (r - a) this]
            · simp [downcountGroup, specDowncount, hz, specAlloc, ha, hle,
                specDowncount_zero]
          · simp [downcountGroup, specDowncount, hz, specAlloc, ha, ih r hr]
    · simp [downcountGroup, specDowncount, hm, ih r hr]

/-- C1: the per-key downcount round agrees with the spec's description of the
Downcount Engine for every nonnegative quantity to remove, and on the spec's
example the order lines `[(P1,PO1,10),(P1,PO1,5)]` with `12` to remove become
`[(P1,PO1,0),(P1,PO1,3)]`. -/
theorem downcount_engine_correct :
    (∀ (part : String) (po : Int) (q : ℚ) (ls : List OrderLine), 0 ≤ q →
      applyEbuDowncount part po q ls = specDowncount part po q ls) ∧
    applyEbuDowncount "P1" 1 12
        [⟨"P1", some 1, some 10⟩, ⟨"P1", some 1, some 5⟩] =
      [⟨"P1", some 1, some 0⟩, ⟨"P1", some 1, some 3⟩] := by
  constructor
  · intro part po q ls hq
    by_cases h : q ≤ 0
    · have hq0 : q = 0 := le_antisymm h hq
      subst hq0
      simp [applyEbuDowncount, specDowncount_zero]
    · simp only [applyEbuDowncount, h, if_false]
      exact downcountGroup_eq_spec part po ls q hq
  · norm_num [applyEbuDowncount, downcountGroup]

/-- C1 witness: the refinement instantiated on the spec's example. -/
theorem downcount_engine_correct_witness :
    applyEbuDowncount "P1" 1 12
        [⟨"P1", some 1, some 10⟩, ⟨"P1", some 1, some 5⟩] =
      specDowncount "P1" 1 12
        [⟨"P1", some 1, some 10⟩, ⟨"P1", some 1, some 5⟩] :=
  downcount_engine_correct.1 "P1" 1 12 _ (by norm_num)

/-- The numeric value of a line's remaining quantity, a null counting as `0`
(pandas `sum` skips NaN). -/
def lineQty (l : OrderLine) : ℚ := l.qty.getD 0

/-- Total remaining quantity over a list of lines. -/
def sumQty (ls : List OrderLine) : ℚ := (ls.map lineQty).sum

/-- Boolean form of the downcount mask. -/
def matchesKeyB (part : String) (po : Int) (l : OrderLine) : Bool :=
  decide (l.part = part) && decide (l.po = some po)

/-- Sum of the positive part of the remaining quantity over the lines a key's
mask selects: the quantity the greedy loop could remove at most. -/
def availPos (part : String) (po : Int) (ls : List OrderLine) : ℚ :=
  ((ls.filter (matchesKeyB part po)).map fun l => max (lineQty l) 0).sum

lemma sumQty_cons (l : OrderLine) (ls : List OrderLine) :
    sumQty (l :: ls) = lineQty l + sumQty ls := rfl

lemma availPos_nonneg (part : String) (po : Int) (ls : List OrderLine) :
    0 ≤ availPos part po ls := by
  refine List.sum_nonneg ?_
  intro x hx
  obtain ⟨l, _, rfl⟩ := List.mem_map.mp hx
  exact le_max_right _ _

lemma availPos_cons_matched (part : String) (po : Int) (l : OrderLine)
    (ls : List OrderLine) (h : l.part = part ∧ l.po = some po) :
    availPos part po (l :: ls) = max (lineQty l) 0 + availPos part po ls := by
  have hb : matchesKeyB part po l = true := by
    simp [matchesKeyB, h.1, h.2]
  simp [availPos, hb]

lemma availPos_cons_unmatched (part : String) (po : Int) (l : OrderLine)
    (ls : List OrderLine) (h : ¬ (l.part = part ∧ l.po = some po)) :
    availPos part po (l :: ls) = availPos part po ls := by
  have hb : matchesKeyB part po l = false := by
    simp only [matchesKeyB, Bool.and_eq_false_iff, decide_eq_false_iff_not]
    by_cases h1 : l.part = part
    · exact Or.inr fun h2 => h ⟨h1, h2⟩
    · exact Or.inl h1
  simp [availPos, hb]

lemma downcountGroup_removed_eq (part : String) (po : Int) :
    ∀ (ls : List OrderLine) (r : ℚ),
      sumQty ls - sumQty (downcountGroup part po r ls).1 =
        r - (downcountGroup part po r ls).2 := by
  intro ls
  induction ls with
  | nil => intro r; simp [downcountGroup]
  | cons l rest ih =>
    intro r
    obtain ⟨lp, lpo, lq⟩ := l
    by_cases hm : lp = part ∧ lpo = some po
    · obtain ⟨rfl, rfl⟩ := hm
      by_cases hz : r ≤ 0
      · simp [downcountGroup, hz]
      · cases lq with
        | none => simpa [downcountGroup, hz, sumQty_cons] using ih r
        | some a =>
          by_cases ha : 0 < a
          · by_cases hle : a ≤ r
            · have := ih (r - a)
              simp only [downcountGroup, hz, if_false, ha, if_true, hle,
                if_pos, and_self, sumQty_cons] at *
              simp only [lineQty, Option.getD_some] at *
              linarith
            · simp only [downcountGroup, hz, if_false, ha, if_true, hle,
                if_pos, and_self, sumQty_cons, lineQty, Option.getD_some]
              ring
          · simpa [downcountGroup, hz, ha, sumQty_cons] using ih r
    · simpa [downcountGroup, hm, sumQty_cons] using ih r

lemma downcountGroup_rem_bounds (part : String) (po : Int) :
    ∀ (ls : List OrderLine) (r : ℚ), 0 ≤ r →
      0 ≤ (downcountGroup part po r ls).2 ∧ (downcountGroup part po r ls).2 ≤ r := by
  intro ls
  induction ls with
  | nil => intro r hr; exact ⟨hr, le_refl r⟩
  | cons l rest ih =>
    intro r hr
    obtain ⟨lp, lpo, lq⟩ := l
    by_cases hm : lp = part ∧ lpo = some po
    · obtain ⟨rfl, rfl⟩ := hm
      by_cases hz : r ≤ 0
      · refine ⟨?_, ?_⟩ <;> simp [downcountGroup, hz, hr]
      · cases lq with
        | none => simpa [downcountGroup, hz] using ih r hr
        | some a =>
          by_cases ha : 0 < a
          · by_cases hle : a ≤ r
            · have h1 : 0 ≤ r - a := sub_nonneg.mpr hle
              have h2 := ih (r - a) h1
              refine ⟨?_, ?_⟩ <;>
                simp only [downcountGroup, hz, if_false, ha, if_true, hle,
                  if_pos, and_self]
              · exact h2.1
              · linarith [h2.2]
            · refine ⟨?_, ?_⟩ <;> simp [downcountGroup, hz, ha, hle, hr]
          · simpa [downcountGroup, hz, ha] using ih r hr
    · simpa [downcountGroup, hm] using ih r hr

lemma downcountGroup_removed_le_avail (part : String) (po : Int) :
    ∀ (ls : List OrderLine) (r : ℚ),
      sumQty ls - sumQty (downcountGroup part po r ls).1 ≤ availPos part po ls := by
  intro ls
  induction ls with
  | nil => intro r; simp [downcountGroup, availPos, sumQty]
  | cons l rest ih =>
    intro r
    obtain ⟨lp, lpo, lq⟩ := l
    by_cases hm : lp = part ∧ lpo = some po
    · obtain ⟨rfl, rfl⟩ := hm
      rw [availPos_cons_matched lp po ⟨lp, some po, lq⟩ rest ⟨rfl, rfl⟩]
      by_cases hz : r ≤ 0
      · simp only [downcountGroup, hz, if_pos, and_self, if_true, sub_self]
        exact add_nonneg (le_max_right _ _) (availPos_nonneg _ _ _)
      · cases lq with
        | none =>
          have h1 := ih r
          have h0 : (0:ℚ) ≤ max (lineQty ⟨lp, some po, (none : Option ℚ)⟩) 0 :=
            le_max_right _ _
          simp only [downcountGroup, hz, if_false, if_pos, and_self, sumQty_cons]
          linarith
        | some a =>
          by_cases ha : 0 < a
          · have hmax : max (lineQty ⟨lp, some po, some a⟩) 0 = a := by
              simp only [lineQty, Option.getD_some]
              exact max_eq_left (le_of_lt ha)
            by_cases hle : a ≤ r
            · have h1 := ih (r - a)
              simp only [downcountGroup, hz, if_false, ha, if_true, hle,
                if_pos, and_self, sumQty_cons, hmax]
              simp only [lineQty, Option.getD_some]
              linarith
            · simp only [downcountGroup, hz, if_false, ha, if_true, hle,
                if_pos, and_self, sumQty_cons, hmax]
              have hra : r < a := lt_of_not_le hle
              have h2 := availPos_nonneg lp po rest
              simp only [lineQty, Option.getD_some]
              linarith
          · have h1 := ih r
            have h0 : (0:ℚ) ≤ max (lineQty ⟨lp, some po, some a⟩) 0 :=
              le_max_right _ _
            simp only [downcountGroup, hz, if_false, ha, if_pos, and_self,
              sumQty_cons]
            linarith
    · rw [availPos_cons_unmatched part po _ rest hm]
      simpa [downcountGroup, hm, sumQty_cons] using ih r

/-- C2: one downcount round removes at most the requested quantity, and at
most the total positive remaining quantity of the lines its mask selects;
the shortfall is simply left over (the function is total, no error), and
for the step-1 round the requested quantity is `abs(total_shipped)`. -/
theorem downcount_conservation :
    (∀ (part : String) (po : Int) (q : ℚ) (ls : List OrderLine), 0 ≤ q →
      sumQty ls - sumQty (applyEbuDowncount part po q ls) ≤ q ∧
      sumQty ls - sumQty (applyEbuDowncount part po q ls) ≤ availPos part po ls) ∧
    (∀ (part : String) (po : Int) (t : ℚ) (ls : List OrderLine),
      sumQty ls - sumQty (applyStep1 part po t ls) ≤ |t| ∧
      sumQty ls - sumQty (applyStep1 part po t ls) ≤ availPos part po ls) := by
  have key : ∀ (part : String) (po : Int) (q : ℚ) (ls : List OrderLine), 0 ≤ q →
      sumQty ls - sumQty (applyEbuDowncount part po q ls) ≤ q ∧
      sumQty ls - sumQty (applyEbuDowncount part po q ls) ≤ availPos part po ls := by
    intro part po q ls hq
    by_cases h : q ≤ 0
    · simpa [applyEbuDowncount, h] using ⟨hq, availPos_nonneg part po ls⟩
    · have h1 := downcountGroup_removed_eq part po ls q
      have h2 := downcountGroup_rem_bounds part po ls q hq
      have h3 := downcountGroup_removed_le_avail part po ls q
      simp only [applyEbuDowncount, h, if_false]
      exact ⟨by linarith [h2.1], h3⟩
  refine ⟨key, fun part po t ls => ?_⟩
  have habs : applyStep1 part po t ls = applyEbuDowncount part po |t| ls := rfl
  rw [habs]
  exact key part po |t| ls (abs_nonneg t)

/-- C2 witness: the conservation bound instantiated on a concrete group. -/
theorem downcount_conservation_witness :
    sumQty [OrderLine.mk "P1" (some 1) (some 10)] -
        sumQty (applyEbuDowncount "P1" 1 12 [OrderLine.mk "P1" (some 1) (some 10)]) ≤ 12 ∧
    sumQty [OrderLine.mk "P1" (some 1) (some 10)] -
        sumQty (applyEbuDowncount "P1" 1 12 [OrderLine.mk "P1" (some 1) (some 10)]) ≤
      availPos "P1" 1 [OrderLine.mk "P1" (some 1) (some 10)] :=
  downcount_conservation.1 "P1" 1 12 _ (by norm_num)

/-- A line's remaining quantity is null or nonnegative. -/
def qtyOkB (l : OrderLine) : Bool :=
  match l.qty with
  | none => true
  | some a => decide (0 ≤ a)

lemma downcountGroup_preserves_qtyOk (part : String) (po : Int) :
    ∀ (ls : List OrderLine) (r : ℚ), ls.all qtyOkB = true →
      ((downcountGroup part po r ls).1).all qtyOkB = true := by
  intro ls
  induction ls with
  | nil => intro r _; simp [downcountGroup]
  | cons l rest ih =>
    intro r hall
    rw [List.all_cons, Bool.and_eq_true] at hall
    obtain ⟨lp, lpo, lq⟩ := l
    by_cases hm : lp = part ∧ lpo = some po
    · obtain ⟨rfl, rfl⟩ := hm
      by_cases hz : r ≤ 0
      · simp only [downcountGroup, hz, if_pos, and_self, if_true]
        rw [List.all_cons, Bool.and_eq_true]
        exact hall
      · cases lq with
        | none =>
          simp only [downcountGroup, hz, if_false, if_pos, and_self]
          rw [List.all_cons, Bool.and_eq_true]
          exact ⟨hall.1, ih r hall.2⟩
        | some a =>
          by_cases ha : 0 < a
          · by_cases hle : a ≤ r
            · simp only [downcountGroup, hz, if_false, ha, if_true, hle,
                if_pos, and_self]
              rw [List.all_cons, Bool.and_eq_true]
              exact ⟨by simp [qtyOkB], ih (r - a) hall.2⟩
            · simp only [downcountGroup, hz, if_false, ha, if_true, hle,
                if_pos, and_self]
              rw [List.all_cons, Bool.and_eq_true]
              refine ⟨?_, hall.2⟩
              have hra : r < a := lt_of_not_le hle
              have hrpos : 0 < r := lt_of_not_le hz
              simp only [qtyOkB, decide_eq_true_eq]
              linarith
          · simp only [downcountGroup, hz, if_false, ha, if_pos, and_self]
            rw [List.all_cons, Bool.and_eq_true]
            exact ⟨hall.1, ih r hall.2⟩
    · simp only [downcountGroup, hm, if_false]
      rw [List.all_cons, Bool.and_eq_true]
      exact ⟨hall.1, ih r hall.2⟩

lemma applyEbuDowncount_preserves_qtyOk (part : String) (po : Int) (q : ℚ)
    (ls : List OrderLine) (h : ls.all qtyOkB = true) :
    (applyEbuDowncount part po q ls).all qtyOkB = true := by
  by_cases hq : q ≤ 0
  · simpa [applyEbuDowncount, hq] using h
  · simpa [applyEbuDowncount, hq] using
      downcountGroup_preserves_qtyOk part po ls q h

/-- C3: if every line's remaining quantity is null or nonnegative, it stays
so after any full downcount pass (EBU-style rounds and step-1 rounds alike);
no line is ever driven below zero. -/
theorem downcount_preserves_nonneg :
    ∀ (m : List ((String × Int) × ℚ)) (ls : List OrderLine),
      ls.all qtyOkB = true →
      (downcountPass m ls).all qtyOkB = true ∧
      (step1Pass m ls).all qtyOkB = true := by
  intro m
  induction m with
  | nil => intro ls h; exact ⟨h, h⟩
  | cons kq m' ih =>
    intro ls h
    constructor
    · have h1 : (applyEbuDowncount kq.1.1 kq.1.2 kq.2 ls).all qtyOkB = true :=
        applyEbuDowncount_preserves_qtyOk _ _ _ _ h
      simpa [downcountPass, List.foldl_cons] using (ih _ h1).1
    · have h1 : (applyStep1 kq.1.1 kq.1.2 kq.2 ls).all qtyOkB = true := by
        have : applyStep1 kq.1.1 kq.1.2 kq.2 ls =
            applyEbuDowncount kq.1.1 kq.1.2 |kq.2| ls := rfl
        rw [this]
        exact applyEbuDowncount_preserves_qtyOk _ _ _ _ h
      simpa [step1Pass, List.foldl_cons] using (ih _ h1).2

/-- C3 witness: nonnegativity preserved on a concrete pass. -/
theorem downcount_preserves_nonneg_witness :
    (downcountPass [(("P1", 1), 12)]
      [OrderLine.mk "P1" (some 1) (some 10), OrderLine.mk "P1" (some 1) (some 5)]).all
        qtyOkB = true :=
  (downcount_preserves_nonneg [(("P1", 1), 12)]
    [OrderLine.mk "P1" (some 1) (some 10), OrderLine.mk "P1" (some 1) (some 5)]
    (by norm_num [qtyOkB])).1

/-- C4 counterexample: in the step-1 (shipment-log) round a strictly negative
summed `Total général` is not a no-op: the code removes its absolute value,
so the single line `("P1", 1, 10)` with summed total `-5` is reduced to `5`. -/
theorem step1_negative_total_not_noop :
    applyStep1 "P1" 1 (-5) [OrderLine.mk "P1" (some 1) (some 10)] ≠
      [OrderLine.mk "P1" (some 1) (some 10)] := by
  norm_num [applyStep1, downcountGroup]

/-- C4 (amended): a quantity-to-remove that is zero or negative is a no-op in
the EBU-based step-2 round and in the `/delta` old-snapshot round; in the
shipment-based step-1 round only a summed total of exactly zero is a no-op,
because that round removes the absolute value of the total. -/
theorem zero_or_negative_noop :
    (∀ (part : String) (po : Int) (q : ℚ) (ls : List OrderLine), q ≤ 0 →
      applyEbuDowncount part po q ls = ls) ∧
    (∀ (part : String) (po : Int) (ls : List OrderLine),
      applyStep1 part po 0 ls = ls) := by
  constructor
  · intro part po q ls h
    simp [applyEbuDowncount, h]
  · intro part po ls
    simp [applyStep1]

/-- C4 witness: a negative EBU quantity leaves a concrete line list unchanged. -/
theorem zero_or_negative_noop_witness :
    applyEbuDowncount "P1" 1 (-3) [OrderLine.mk "P1" (some 1) (some 10)] =
      [OrderLine.mk "P1" (some 1) (some 10)] :=
  zero_or_negative_noop.1 "P1" 1 (-3) _ (by norm_num)

lemma downcountGroup_get?_unmatched (part : String) (po : Int) :
    ∀ (ls : List OrderLine) (r : ℚ) (i : ℕ) (l : OrderLine),
      ls.get? i = some l → ¬ matchesKey part po l →
      ((downcountGroup part po r ls).1).get? i = some l := by
  intro ls
  induction ls with
  | nil => intro r i l h _; simp at h
  | cons x rest ih =>
    intro r i l hget hnm
    cases i with
    | zero =>
      rw [List.get?_cons_zero] at hget
      obtain rfl : x = l := by injection hget
      by_cases hm : x.part = part ∧ x.po = some po
      · exact absurd hm hnm
      · obtain ⟨xp, xpo, xq⟩ := x
        simp only [downcountGroup, hm, if_false, List.get?_cons_zero]
    | succ i =>
      rw [List.get?_cons_succ] at hget
      obtain ⟨xp, xpo, xq⟩ := x
      by_cases hm : xp = part ∧ xpo = some po
      · obtain ⟨rfl, rfl⟩ := hm
        by_cases hz : r ≤ 0
        · simp only [downcountGroup, hz, if_pos, and_self, if_true,
            List.get?_cons_succ]
          exact hget
        · cases xq with
          | none =>
            simp only [downcountGroup, hz, if_false, if_pos, and_self,
              List.get?_cons_succ]
            exact ih r i l hget hnm
          | some a =>
            by_cases ha : 0 < a
            · by_cases hle : a ≤ r
              · simp only [downcountGroup, hz, if_false, ha, if_true, hle,
                  if_pos, and_self, List.get?_cons_succ]
                exact ih (r - a) i l hget hnm
              · simp only [downcountGroup, hz, if_false, ha, if_true, hle,
                  if_pos, and_self, List.get?_cons_succ]
                exact hget
            · simp only [downcountGroup, hz, if_false, ha, if_pos, and_self,
                List.get?_cons_succ]
              exact ih r i l hget hnm
      · simp only [downcountGroup, hm, if_false, List.get?_cons_succ]
        exact ih r i l hget hnm

lemma applyEbuDowncount_get?_unmatched (part : String) (po : Int) (q : ℚ)
    (ls : List OrderLine) (i : ℕ) (l : OrderLine)
    (hget : ls.get? i = some l) (hnm : ¬ matchesKey part po l) :
    (applyEbuDowncount part po q ls).get? i = some l := by
  by_cases hq : q ≤ 0
  · simpa [applyEbuDowncount, hq] using hget
  · simp only [applyEbuDowncount, hq, if_false]
    exact downcountGroup_get?_unmatched part po ls q i l hget hnm

/-- C9: an order line whose `(Part #, Purchasing Document)` pair matches no
key of the quantity-to-remove mapping is left exactly as it was (same value,
same row position) by a whole downcount pass, in both the EBU-style rounds
and the step-1 round. -/
theorem unmatched_lines_unchanged :
    ∀ (m : List ((String × Int) × ℚ)) (ls : List OrderLine) (i : ℕ)
      (l : OrderLine),
      ls.get? i = some l →
      (∀ kq ∈ m, ¬ matchesKey kq.1.1 kq.1.2 l) →
      (downcountPass m ls).get? i = some l ∧ (step1Pass m ls).get? i = some l := by
  intro m
  induction m with
  | nil => intro ls i l hget _; exact ⟨hget, hget⟩
  | cons kq m' ih =>
    intro ls i l hget hnm
    have hkq : ¬ matchesKey kq.1.1 kq.1.2 l := hnm kq (List.mem_cons_self _ _)
    have htail : ∀ kq' ∈ m', ¬ matchesKey kq'.1.1 kq'.1.2 l :=
      fun kq' h => hnm kq' (List.mem_cons_of_mem _ h)
    constructor
    · have h1 := applyEbuDowncount_get?_unmatched kq.1.1 kq.1.2 kq.2 ls i l hget hkq
      simpa [downcountPass, List.foldl_cons] using
        (ih (applyEbuDowncount kq.1.1 kq.1.2 kq.2 ls) i l h1 htail).1
    · have habs : applyStep1 kq.1.1 kq.1.2 kq.2 ls =
        applyEbuDowncount kq.1.1 kq.1.2 |kq.2| ls := rfl
      have h1 := applyEbuDowncount_get?_unmatched kq.1.1 kq.1.2 |kq.2| ls i l hget hkq
      rw [← habs] at h1
      simpa [step1Pass, List.foldl_cons] using
        (ih (applyStep1 kq.1.1 kq.1.2 kq.2 ls) i l h1 htail).2

/-- C9 witness: a concrete unmatched line survives a concrete pass. -/
theorem unmatched_lines_unchanged_witness :
    (downcountPass [(("P1", 1), 5)] [OrderLine.mk "P2" (some 1) (some 10)]).get? 0 =
        some (OrderLine.mk "P2" (some 1) (some 10)) ∧
    (step1Pass [(("P1", 1), 5)] [OrderLine.mk "P2" (some 1) (some 10)]).get? 0 =
        some (OrderLine.mk "P2" (some 1) (some 10)) :=
  unmatched_lines_unchanged [(("P1", 1), 5)] [OrderLine.mk "P2" (some 1) (some 10)]
    0 (OrderLine.mk "P2" (some 1) (some 10)) rfl
    (by
      intro kq hkq hc
      simp only [List.mem_singleton] at hkq
      subst hkq
      exact absurd hc.1 (by decide))

/-- C10: the step-1 round applies the absolute value of the group's summed
`Total général`: it coincides with the plain round at `abs(total)`, is a
no-op exactly for a zero total, and on a strictly negative total `-12` it
removes `12` from the matching lines instead of skipping them. -/
theorem step1_downcount_uses_abs :
    (∀ (part : String) (po : Int) (t : ℚ) (ls : List OrderLine),
      applyStep1 part po t ls = applyEbuDowncount part po |t| ls) ∧
    (∀ (part : String) (po : Int) (ls : List OrderLine),
      applyStep1 part po 0 ls = ls) ∧
    applyStep1 "P1" 1 (-12)
        [OrderLine.mk "P1" (some 1) (some 10), OrderLine.mk "P1" (some 1) (some 5)] =
      [OrderLine.mk "P1" (some 1) (some 0), OrderLine.mk "P1" (some 1) (some 3)] := by
  refine ⟨fun _ _ _ _ => rfl, fun part po ls => by simp [applyStep1], ?_⟩
  norm_num [applyStep1, downcountGroup]

/-- One shipment/receipt-log row after normalisation (`main.py` lines
132-152): `Part #`, cleaned `PO Number`, and the `SlipDate` parsed from the
packing slip's first 8 characters (`none` models NaT). -/
structure ShipRec where
  part : String
  po : Option Int
  slipDate : Option Int
deriving DecidableEq

/-- One EBU quantity row after `parse_ebu` (`main.py` lines 77-87):
`Part #`, cleaned `PO Number`, nullable `Ship Date`, numeric `(f) Qty`. -/
structure EbuRow where
  part : String
  po : Option Int
  shipDate : Option Int
  qty : ℚ
deriving DecidableEq

/-- Keys of the shipment-log groupby (`ship_latest_dates` index): pandas
drops rows whose purchasing document is null, and each key appears once. -/
def shipKeys (log : List ShipRec) : List (String × Int) :=
  (log.filterMap fun s => s.po.map fun p => (s.part, p)).dedup

/-- Value of `ship_latest_dates` at a key: the latest non-null slip date of the key's rows
(`groupby.max` skips NaT and yields NaT when every date is null). -/
def shipLatest (log : List ShipRec) (k : String × Int) : Option Int :=
  ((log.filter fun s => decide (s.part = k.1) && decide (s.po = some k.2)).filterMap
    fun s => s.slipDate).max?

/-- Sum of `(f) Qty` over one key's EBU rows whose ship date is strictly
after the cutoff; a null ship date compares as `False` in pandas and is
never counted. -/
def ebuSum (rows : List EbuRow) (k : String × Int) (cutoff : Int) : ℚ :=
  ((rows.filter fun e => decide (e.part = k.1) && decide (e.po = some k.2) &&
      (match e.shipDate with
       | some d => decide (cutoff < d)
       | none => false)).map fun e => e.qty).sum

/-- The `pag_keys` set: `(Part #, Purchasing Document)` pairs of the PAG rows with a
non-null purchasing document, deduplicated (a Python set). -/
def pagKeys (ls : List OrderLine) : List (String × Int) :=
  (ls.filterMap fun l => l.po.map fun p => (l.part, p)).dedup

/-- Part A of the `ebu_counts` dict (`main.py` lines 191-200): one entry per
shipment-log key whose latest slip date is non-null, holding the EBU sum
after that date. -/
def ebuCountsA (log : List ShipRec) (rows : List EbuRow) :
    List ((String × Int) × ℚ) :=
  (shipKeys log).filterMap fun k =>
    (shipLatest log k).map fun c => (k, ebuSum rows k c)

/-- The set difference `missing_ship_keys = pag_keys - ship_keys` (`main.py` lines 203-209). -/
def missingShipKeys (pag : List OrderLine) (log : List ShipRec) :
    List (String × Int) :=
  (pagKeys pag).filter fun k => ! (shipKeys log).contains k

/-- Part B of the dict construction (`main.py` lines 216-226): for one
missing key, add `ebu_counts.get(key, 0) + qty` when the sum is non-zero. -/
def ebuCountsStep (rows : List EbuRow) (cutoff : Int)
    (acc : List ((String × Int) × ℚ)) (k : String × Int) :
    List ((String × Int) × ℚ) :=
  let q := ebuSum rows k cutoff
  if q ≠ 0 then acc ++ [(k, ((acc.lookup k).getD 0) + q)] else acc

/-- The full `ebu_counts` dict: part A, then part B folded over the missing
keys. -/
def ebuCounts (log : List ShipRec) (rows : List EbuRow) (pag : List OrderLine)
    (cutoff : Int) : List ((String × Int) × ℚ) :=
  (missingShipKeys pag log).foldl (ebuCountsStep rows cutoff) (ebuCountsA log rows)

/-- The quantity the step-2 pass applies for a key: its `ebu_counts` entry; a
key absent from the dict gets no downcount round, the same effect as `0`. -/
def ebuUsed (log : List ShipRec) (rows : List EbuRow) (pag : List OrderLine)
    (cutoff : Int) (k : String × Int) : ℚ :=
  ((ebuCounts log rows pag cutoff).lookup k).getD 0

lemma lookup_append_right_ne {κ β : Type} [BEq κ] [LawfulBEq κ]
    (acc : List (κ × β)) (k m : κ) (q : β) (h : k ≠ m) :
    (acc ++ [(m, q)]).lookup k = acc.lookup k := by
  induction acc with
  | nil => simp [List.lookup_cons, beq_eq_false_iff_ne.mpr h]
  | cons e acc ih =>
    obtain ⟨ek, eb⟩ := e
    by_cases hek : k = ek
    · subst hek
      simp [List.lookup_cons]
    · simp only [List.cons_append, List.lookup_cons,
        beq_eq_false_iff_ne.mpr hek]
      exact ih

lemma lookup_append_self {κ β : Type} [BEq κ] [LawfulBEq κ]
    (acc : List (κ × β)) (k : κ) (v : β) (h : acc.lookup k = none) :
    (acc ++ [(k, v)]).lookup k = some v := by
  induction acc with
  | nil => simp [List.lookup_cons]
  | cons e acc ih =>
    obtain ⟨ek, eb⟩ := e
    by_cases hek : k = ek
    · subst hek
      simp [List.lookup_cons] at h
    · simp only [List.lookup_cons, beq_eq_false_iff_ne.mpr hek] at h
      simp only [List.cons_append, List.lookup_cons,
        beq_eq_false_iff_ne.mpr hek]
      exact ih h

lemma lookup_eq_none_of_keys_ne {κ β : Type} [BEq κ] [LawfulBEq κ]
    (l : List (κ × β)) (k : κ) (h : ∀ e ∈ l, e.1 ≠ k) : l.lookup k = none := by
  induction l with
  | nil => rfl
  | cons e l ih =>
    obtain ⟨ek, eb⟩ := e
    have hek : k ≠ ek := Ne.symm (h (ek, eb) (List.mem_cons_self _ _))
    simp only [List.lookup_cons, beq_eq_false_iff_ne.mpr hek]
    exact ih fun e he => h e (List.mem_cons_of_mem _ he)

lemma mem_filterMap_pair_key {κ γ β : Type} (keys : List κ)
    (f : κ → Option γ) (g : κ → γ → β) (e : κ × β)
    (he : e ∈ keys.filterMap fun k' => (f k').map fun c => (k', g k' c)) :
    e.1 ∈ keys := by
  obtain ⟨k', hk', hmap⟩ := List.mem_filterMap.mp he
  obtain ⟨c, _, hc⟩ := Option.map_eq_some'.mp hmap
  rw [← hc]
  exact hk'

lemma lookup_filterMap_of_not_mem {κ γ β : Type} [BEq κ] [LawfulBEq κ]
    (keys : List κ) (f : κ → Option γ) (g : κ → γ → β)
    (k : κ) (hk : k ∉ keys) :
    ((keys.filterMap fun k' => (f k').map fun c => (k', g k' c)).lookup k) =
      none := by
  refine lookup_eq_none_of_keys_ne _ _ fun e he hek => hk ?_
  rw [← hek]
  exact mem_filterMap_pair_key keys f g e he

lemma lookup_filterMap_of_nodup {κ γ β : Type} [BEq κ] [LawfulBEq κ]
    [DecidableEq κ] (keys : List κ) (f : κ → Option γ) (g : κ → γ → β)
    (hnd : keys.Nodup) (k : κ) (hk : k ∈ keys) :
    ((keys.filterMap fun k' => (f k').map fun c => (k', g k' c)).lookup k) =
      (f k).map (g k) := by
  induction keys with
  | nil => simp at hk
  | cons a keys ih =>
    rw [List.nodup_cons] at hnd
    by_cases hak : a = k
    · subst hak
      cases hfa : f a with
      | none =>
        simp only [List.filterMap_cons, hfa, Option.map_none']
        exact lookup_filterMap_of_not_mem keys f g a hnd.1
      | some c =>
        simp only [List.filterMap_cons, hfa, Option.map_some', List.lookup_cons,
          beq_self_eq_true]
    · have hka : k ≠ a := fun h => hak h.symm
      have hk' : k ∈ keys := (List.mem_cons.mp hk).resolve_left hka
      cases hfa : f a with
      | none =>
        simp only [List.filterMap_cons, hfa, Option.map_none']
        exact ih hnd.2 hk'
      | some c =>
        simp only [List.filterMap_cons, hfa, Option.map_some', List.lookup_cons,
          beq_eq_false_iff_ne.mpr hka]
        exact ih hnd.2 hk'

lemma foldl_step_lookup_not_mem (rows : List EbuRow) (cutoff : Int) :
    ∀ (ms : List (String × Int)) (acc : List ((String × Int) × ℚ))
      (k : String × Int), k ∉ ms →
      (ms.foldl (ebuCountsStep rows cutoff) acc).lookup k = acc.lookup k := by
  intro ms
  induction ms with
  | nil => intro acc k _; rfl
  | cons m ms ih =>
    intro acc k hk
    have hkm : k ≠ m := fun h => hk (h ▸ List.mem_cons_self m ms)
    have hk' : k ∉ ms := fun h => hk (List.mem_cons_of_mem _ h)
    rw [List.foldl_cons, ih _ k hk']
    simp only [ebuCountsStep]
    by_cases hq : ebuSum rows m cutoff ≠ 0
    · rw [if_pos hq]
      exact lookup_append_right_ne acc k m _ hkm
    · rw [if_neg hq]

lemma foldl_step_lookup_mem (rows : List EbuRow) (cutoff : Int) :
    ∀ (ms : List (String × Int)) (acc : List ((String × Int) × ℚ))
      (k : String × Int), ms.Nodup → k ∈ ms → acc.lookup k = none →
      ((ms.foldl (ebuCountsStep rows cutoff) acc).lookup k).getD 0 =
        ebuSum rows k cutoff := by
  intro ms
  induction ms with
  | nil => intro acc k _ hk _; simp at hk
  | cons m ms ih =>
    intro acc k hnd hk hacc
    rw [List.nodup_cons] at hnd
    rw [List.foldl_cons]
    by_cases hkm : k = m
    · subst hkm
      rw [foldl_step_lookup_not_mem rows cutoff ms _ k hnd.1]
      simp only [ebuCountsStep]
      by_cases hq : ebuSum rows k cutoff ≠ 0
      · rw [if_pos hq, lookup_append_self acc k _ hacc, hacc]
        simp
      · rw [if_neg hq, hacc]
        rw [not_not] at hq
        simp [hq]
    · have hk' : k ∈ ms := (List.mem_cons.mp hk).resolve_left hkm
      refine ih _ k hnd.2 hk' ?_
      simp only [ebuCountsStep]
      by_cases hq : ebuSum rows m cutoff ≠ 0
      · rw [if_pos hq, lookup_append_right_ne acc k m _ hkm]
        exact hacc
      · rw [if_neg hq]
        exact hacc

/-- C5: the EBU quantity the step-2 round uses for a key is the sum of
`(f) Qty` over that key's EBU rows strictly after the cutoff: the latest
shipment-log slip date when the key appears in the shipment log (and that
latest date is non-null), and the caller-supplied cutoff when the key is
absent from the shipment log but present in the PAG sheet. -/
theorem ebu_cutoff_selection :
    ∀ (log : List ShipRec) (rows : List EbuRow) (pag : List OrderLine)
      (cutoff : Int) (k : String × Int) (c : Int),
      (k ∈ shipKeys log → shipLatest log k = some c →
        ebuUsed log rows pag cutoff k = ebuSum rows k c) ∧
      (k ∉ shipKeys log → k ∈ pagKeys pag →
        ebuUsed log rows pag cutoff k = ebuSum rows k cutoff) := by
  intro log rows pag cutoff k c
  have hcont : ((shipKeys log).contains k = true) ↔ k ∈ shipKeys log := by
    simp only [List.contains]
    exact List.elem_iff
  constructor
  · intro hk hlat
    have hnotmiss : k ∉ missingShipKeys pag log := by
      intro hmem
      rw [missingShipKeys, List.mem_filter, Bool.not_eq_true',
        ← Bool.not_eq_true] at hmem
      exact hmem.2 (hcont.mpr hk)
    unfold ebuUsed ebuCounts
    rw [foldl_step_lookup_not_mem rows cutoff _ _ k hnotmiss]
    unfold ebuCountsA
    rw [lookup_filterMap_of_nodup (shipKeys log) (shipLatest log)
      (fun k' c' => ebuSum rows k' c') (List.nodup_dedup _) k hk, hlat]
    rfl
  · intro hk hpag
    have hmiss : k ∈ missingShipKeys pag log := by
      rw [missingShipKeys, List.mem_filter]
      refine ⟨hpag, ?_⟩
      rw [Bool.not_eq_true', ← Bool.not_eq_true]
      exact fun hc => hk (hcont.mp hc)
    have hndmiss : (missingShipKeys pag log).Nodup :=
      List.Nodup.filter _ (List.nodup_dedup _)
    unfold ebuUsed ebuCounts
    refine foldl_step_lookup_mem rows cutoff _ _ k hndmiss hmiss ?_
    unfold ebuCountsA
    exact lookup_filterMap_of_not_mem (shipKeys log) (shipLatest log)
      (fun k' c' => ebuSum rows k' c') k hk

/-- C5 witness: a concrete two-row model where one key takes its cutoff from
the shipment log and another, absent from the log, takes the caller's. -/
theorem ebu_cutoff_selection_witness :
    ebuUsed [ShipRec.mk "P1" (some 1) (some 20)]
        [EbuRow.mk "P1" (some 1) (some 25) 7, EbuRow.mk "P2" (some 2) (some 9) 4]
        [OrderLine.mk "P2" (some 2) (some 10)] 8 ("P1", 1) =
      ebuSum [EbuRow.mk "P1" (some 1) (some 25) 7, EbuRow.mk "P2" (some 2) (some 9) 4]
        ("P1", 1) 20 ∧
    ebuUsed [ShipRec.mk "P1" (some 1) (some 20)]
        [EbuRow.mk "P1" (some 1) (some 25) 7, EbuRow.mk "P2" (some 2) (some 9) 4]
        [OrderLine.mk "P2" (some 2) (some 10)] 8 ("P2", 2) =
      ebuSum [EbuRow.mk "P1" (some 1) (some 25) 7, EbuRow.mk "P2" (some 2) (some 9) 4]
        ("P2", 2) 8 :=
  ⟨(ebu_cutoff_selection [ShipRec.mk "P1" (some 1) (some 20)]
      [EbuRow.mk "P1" (some 1) (some 25) 7, EbuRow.mk "P2" (some 2) (some 9) 4]
      [OrderLine.mk "P2" (some 2) (some 10)] 8 ("P1", 1) 20).1
      (by decide) (by decide),
   (ebu_cutoff_selection [ShipRec.mk "P1" (some 1) (some 20)]
      [EbuRow.mk "P1" (some 1) (some 25) 7, EbuRow.mk "P2" (some 2) (some 9) 4]
      [OrderLine.mk "P2" (some 2) (some 10)] 8 ("P2", 2) 20).2
      (by decide) (by decide)⟩

/-- One snapshot row as the delta computation sees it (`main.py` lines
329-345): `Material`, cleaned `Purchasing Document`, the derived `Month`
string of the Stat-Rel date, and `Qty remaining to deliver`. -/
structure SnapRow where
  material : String
  po : Option Int
  month : String
  qty : ℚ
deriving DecidableEq

/-- The pandas groupby mask for one `(Material, PO, Month)` key. -/
def matchesSnapB (k : String × Int × String) (r : SnapRow) : Bool :=
  decide (r.material = k.1) && decide (r.po = some k.2.1) &&
    decide (r.month = k.2.2)

/-- Keys of a snapshot's `(Material, PO, Month)` groupby; rows with a null
purchasing document are dropped, each key kept once. -/
def snapKeys (rows : List SnapRow) : List (String × Int × String) :=
  (rows.filterMap fun r => r.po.map fun p => (r.material, p, r.month)).dedup

/-- Summed `Qty remaining to deliver` of one key's rows. -/
def qtySumSnap (rows : List SnapRow) (k : String × Int × String) : ℚ :=
  ((rows.filter (matchesSnapB k)).map fun r => r.qty).sum

/-- Grouped summaries `new_grouped` / `old_grouped` (`main.py` lines 347-355): one summed
entry per key present in the snapshot. -/
def groupedQty (rows : List SnapRow) : List ((String × Int × String) × ℚ) :=
  (snapKeys rows).map fun k => (k, qtySumSnap rows k)

/-- Keys of the outer join of the two grouped summaries. -/
def mergedKeys (newRows oldRows : List SnapRow) : List (String × Int × String) :=
  (snapKeys newRows ++ snapKeys oldRows).dedup

/-- The merged delta table (`main.py` lines 357-362): outer join on the key,
missing side filled with `0`, and `Delta = New_Qty - Old_Qty`. -/
def deltaTable (newRows oldRows : List SnapRow) :
    List ((String × Int × String) × ℚ × ℚ × ℚ) :=
  (mergedKeys newRows oldRows).map fun k =>
    (k, ((groupedQty newRows).lookup k).getD 0,
      ((groupedQty oldRows).lookup k).getD 0,
      ((groupedQty newRows).lookup k).getD 0 -
        ((groupedQty oldRows).lookup k).getD 0)

/-- Byte-wise character comparison, as Python compares strings. -/
def charLeB (a b : Char) : Bool := decide (a.toNat ≤ b.toNat)

/-- Lexicographic comparison of character lists. -/
def lexLeB : List Char → List Char → Bool
  | [], _ => true
  | _ :: _, [] => false
  | a :: as, b :: bs => if a = b then lexLeB as bs else charLeB a b

/-- Lexicographic string comparison (`sorted` on month strings). -/
def strLeB (a b : String) : Bool := lexLeB a.data b.data

/-- The pivot's month columns: the distinct months of the merged table in
ascending order (`sorted_cols` of `main.py` lines 374-378). -/
def monthsSorted (newRows oldRows : List SnapRow) : List String :=
  List.insertionSort (fun a b => strLeB a b = true)
    (((mergedKeys newRows oldRows).map fun k => k.2.2).dedup)

/-- One cell of the Delta pivot (`pivot_table` with `aggfunc="sum"` and
`fill_value=0`): the summed `Delta` of the merged rows with that exact
`(Material, PO, Month)` key. -/
def deltaCell (newRows oldRows : List SnapRow) (m : String) (p : Int)
    (mo : String) : ℚ :=
  (((deltaTable newRows oldRows).filter fun e =>
      decide (e.1 = (m, p, mo))).map fun e => e.2.2.2).sum

/-- One row of the Delta pivot, across the sorted month columns. -/
def deltaPivotRow (newRows oldRows : List SnapRow) (m : String) (p : Int) :
    List ℚ :=
  (monthsSorted newRows oldRows).map fun mo => deltaCell newRows oldRows m p mo

/-- The in-place cumulative loop of `main.py` lines 380-383, after the first
column: each column becomes the previous (already accumulated) column plus
itself. -/
def cumulateAux (prev : ℚ) : List ℚ → List ℚ
  | [] => []
  | y :: ys => (prev + y) :: cumulateAux (prev + y) ys

/-- The whole cumulative row: the first column is kept, the rest accumulate
left to right. -/
def cumulate : List ℚ → List ℚ
  | [] => []
  | x :: xs => x :: cumulateAux x xs

/-- One row of the `Cumulative` sheet. -/
def cumulativeRow (newRows oldRows : List SnapRow) (m : String) (p : Int) :
    List ℚ :=
  cumulate (deltaPivotRow newRows oldRows m p)

lemma lookup_map_self {κ β : Type} [BEq κ] [LawfulBEq κ]
    (keys : List κ) (h : κ → β) (hnd : keys.Nodup) (k : κ) (hk : k ∈ keys) :
    ((keys.map fun k' => (k', h k')).lookup k) = some (h k) := by
  induction keys with
  | nil => simp at hk
  | cons a keys ih =>
    rw [List.nodup_cons] at hnd
    by_cases hak : a = k
    · subst hak
      simp only [List.map_cons, List.lookup_cons, beq_self_eq_true]
    · have hka : k ≠ a := fun h' => hak h'.symm
      have hk' : k ∈ keys := (List.mem_cons.mp hk).resolve_left hka
      simp only [List.map_cons, List.lookup_cons, beq_eq_false_iff_ne.mpr hka]
      exact ih hnd.2 hk'

lemma lookup_map_none {κ β : Type} [BEq κ] [LawfulBEq κ]
    (keys : List κ) (h : κ → β) (k : κ) (hk : k ∉ keys) :
    ((keys.map fun k' => (k', h k')).lookup k) = none := by
  refine lookup_eq_none_of_keys_ne _ _ fun e he hek => hk ?_
  obtain ⟨k', hk', rfl⟩ := List.mem_map.mp he
  rw [← hek]
  exact hk'

lemma snapKeys_nodup (rows : List SnapRow) : (snapKeys rows).Nodup := by
  unfold snapKeys
  exact List.nodup_dedup _

lemma mergedKeys_nodup (newRows oldRows : List SnapRow) :
    (mergedKeys newRows oldRows).Nodup := by
  unfold mergedKeys
  exact List.nodup_dedup _

lemma qtySumSnap_eq_zero_of_not_mem (rows : List SnapRow)
    (k : String × Int × String) (hk : k ∉ snapKeys rows) :
    qtySumSnap rows k = 0 := by
  unfold qtySumSnap
  have hfil : rows.filter (matchesSnapB k) = [] := by
    rw [List.filter_eq_nil_iff]
    intro r hr hmatch
    simp only [matchesSnapB, Bool.and_eq_true, decide_eq_true_eq] at hmatch
    refine hk ?_
    rw [snapKeys, List.mem_dedup, List.mem_filterMap]
    refine ⟨r, hr, ?_⟩
    rw [hmatch.1.2]
    simp only [Option.map_some']
    rw [hmatch.1.1, hmatch.2]
  rw [hfil]
  rfl

lemma groupedQty_lookup_getD (rows : List SnapRow) (k : String × Int × String) :
    ((groupedQty rows).lookup k).getD 0 = qtySumSnap rows k := by
  by_cases hk : k ∈ snapKeys rows
  · rw [groupedQty, lookup_map_self _ _ (snapKeys_nodup rows) k hk]
    rfl
  · rw [groupedQty, lookup_map_none _ _ k hk,
      qtySumSnap_eq_zero_of_not_mem rows k hk]
    rfl

lemma cumulateAux_get? :
    ∀ (l : List ℚ) (prev : ℚ) (i : ℕ), i < l.length →
      (cumulateAux prev l).get? i = some (prev + (l.take (i + 1)).sum) := by
  intro l
  induction l with
  | nil => intro prev i h; simp at h
  | cons y ys ih =>
    intro prev i h
    cases i with
    | zero =>
      simp [cumulateAux, List.take_succ_cons]
    | succ i =>
      have hlen : i < ys.length := by simpa using h
      simp only [cumulateAux, List.get?_cons_succ]
      rw [ih (prev + y) i hlen]
      refine congrArg some ?_
      rw [List.take_succ_cons, List.sum_cons]
      ring

lemma cumulate_get? :
    ∀ (l : List ℚ) (i : ℕ), i < l.length →
      (cumulate l).get? i = some ((l.take (i + 1)).sum) := by
  intro l i h
  cases l with
  | nil => simp at h
  | cons x xs =>
    cases i with
    | zero => simp [cumulate, List.take_succ_cons]
    | succ i =>
      have hlen : i < xs.length := by simpa using h
      simp only [cumulate, List.get?_cons_succ]
      rw [cumulateAux_get? xs x i hlen]
      refine congrArg some ?_
      rw [List.take_succ_cons, List.sum_cons]

/-- C6: each merged key's table entry holds the new snapshot's summed
quantity, the old one's (a side missing the key contributing `0`), and their
difference as `Delta`; in the pivoted report the cumulative value of the
first sorted month column equals its delta, and every column's cumulative
value is the running left-to-right sum of the deltas up to it. -/
theorem delta_cumulative_correct :
    (∀ (newRows oldRows : List SnapRow) (k : String × Int × String),
      k ∈ mergedKeys newRows oldRows →
      (deltaTable newRows oldRows).lookup k =
        some (qtySumSnap newRows k, qtySumSnap oldRows k,
          qtySumSnap newRows k - qtySumSnap oldRows k)) ∧
    (∀ (newRows oldRows : List SnapRow) (m : String) (p : Int),
      (cumulativeRow newRows oldRows m p).get? 0 =
        (deltaPivotRow newRows oldRows m p).get? 0) ∧
    (∀ (newRows oldRows : List SnapRow) (m : String) (p : Int) (i : ℕ),
      i < (monthsSorted newRows oldRows).length →
      (cumulativeRow newRows oldRows m p).get? i =
        some (((deltaPivotRow newRows oldRows m p).take (i + 1)).sum)) := by
  refine ⟨?_, ?_, ?_⟩
  · intro newRows oldRows k hk
    rw [deltaTable, lookup_map_self _ _ (mergedKeys_nodup newRows oldRows) k hk,
      groupedQty_lookup_getD, groupedQty_lookup_getD]
  · intro newRows oldRows m p
    rw [cumulativeRow]
    cases h : deltaPivotRow newRows oldRows m p with
    | nil => rfl
    | cons x xs => rfl
  · intro newRows oldRows m p i hi
    have hlen : i < (deltaPivotRow newRows oldRows m p).length := by
      rw [deltaPivotRow, List.length_map]
      exact hi
    rw [cumulativeRow]
    exact cumulate_get? _ i hlen

/-- C6 witness: the spec's example, new quantity 100 against old quantity 80
in one month, instantiating all three conjuncts. -/
theorem delta_cumulative_correct_witness :
    ((deltaTable [SnapRow.mk "P1" (some 1) "2024-01" 100]
        [SnapRow.mk "P1" (some 1) "2024-01" 80]).lookup ("P1", 1, "2024-01") =
      some (qtySumSnap [SnapRow.mk "P1" (some 1) "2024-01" 100] ("P1", 1, "2024-01"),
        qtySumSnap [SnapRow.mk "P1" (some 1) "2024-01" 80] ("P1", 1, "2024-01"),
        qtySumSnap [SnapRow.mk "P1" (some 1) "2024-01" 100] ("P1", 1, "2024-01") -
          qtySumSnap [SnapRow.mk "P1" (some 1) "2024-01" 80] ("P1", 1, "2024-01"))) ∧
    (cumulativeRow [SnapRow.mk "P1" (some 1) "2024-01" 100]
        [SnapRow.mk "P1" (some 1) "2024-01" 80] "P1" 1).get? 0 =
      some (((deltaPivotRow [SnapRow.mk "P1" (some 1) "2024-01" 100]
        [SnapRow.mk "P1" (some 1) "2024-01" 80] "P1" 1).take 1).sum) :=
  ⟨delta_cumulative_correct.1 [SnapRow.mk "P1" (some 1) "2024-01" 100]
      [SnapRow.mk "P1" (some 1) "2024-01" 80] ("P1", 1, "2024-01") (by decide),
   delta_cumulative_correct.2.2 [SnapRow.mk "P1" (some 1) "2024-01" 100]
      [SnapRow.mk "P1" (some 1) "2024-01" 80] "P1" 1 0 (by decide)⟩

/-- One row of the `Price_Lookup` sheet: `Material`, cleaned
`Purchasing Document`, numeric `Unit_Price`. -/
structure PriceRow where
  material : String
  po : Option Int
  price : ℚ
deriving DecidableEq

/-- The merge mask on `(Material, Purchasing Document)`. -/
def priceMatches (m : String) (p : Int) (pr : PriceRow) : Bool :=
  decide (pr.material = m) && decide (pr.po = some p)

/-- Left merge of a delta table with the price lookup on `(Material, PO)`
(`main.py` lines 389-391): every merged row pairs with each matching price
row, or keeps `Unit_Price = 0` when none matches (the `fillna`). Each output
row carries the key, the row's `Delta` and the joined `Unit_Price`. -/
def joinPrice (table : List ((String × Int × String) × ℚ × ℚ × ℚ))
    (prices : List PriceRow) : List ((String × Int × String) × ℚ × ℚ) :=
  match table with
  | [] => []
  | e :: rest =>
    (match prices.filter (priceMatches e.1.1 e.1.2.1) with
     | [] => [(e.1, e.2.2.2, 0)]
     | ps => ps.map fun pr => (e.1, e.2.2.2, pr.price)) ++ joinPrice rest prices

/-- Computes `Revenue = Delta * Unit_Price` on each merged row (`main.py` line 393),
for an arbitrary merged table. -/
def revenueOfTable (table : List ((String × Int × String) × ℚ × ℚ × ℚ))
    (prices : List PriceRow) : List ((String × Int × String) × ℚ × ℚ × ℚ) :=
  (joinPrice table prices).map fun e => (e.1, e.2.1, e.2.2, e.2.1 * e.2.2)

/-- The revenue rows of the delta pipeline. -/
def revenueRows (newRows oldRows : List SnapRow) (prices : List PriceRow) :
    List ((String × Int × String) × ℚ × ℚ × ℚ) :=
  revenueOfTable (deltaTable newRows oldRows) prices

/-- Modelled from the spec (§4.3): the `Unit_Price` looked up by
`(Material, PO)`, defaulting to `0` when the key is absent. -/
def lookupPrice (prices : List PriceRow) (m : String) (p : Int) : ℚ :=
  ((prices.find? (priceMatches m p)).map fun pr => pr.price).getD 0

lemma filter_priceMatches_eq_find?_toList (prices : List PriceRow)
    (m : String) (p : Int)
    (hnd : (prices.map fun pr => (pr.material, pr.po)).Nodup) :
    prices.filter (priceMatches m p) =
      (prices.find? (priceMatches m p)).toList := by
  induction prices with
  | nil => rfl
  | cons pr0 prices ih =>
    rw [List.map_cons, List.nodup_cons] at hnd
    by_cases h0 : priceMatches m p pr0 = true
    · rw [List.filter_cons_of_pos h0, List.find?_cons_of_pos _ h0]
      have hkey0 : pr0.material = m ∧ pr0.po = some p := by
        simpa [priceMatches] using h0
      have hrest : prices.filter (priceMatches m p) = [] := by
        rw [List.filter_eq_nil_iff]
        intro pr hpr hmatch
        simp only [priceMatches, Bool.and_eq_true, decide_eq_true_eq] at hmatch
        refine hnd.1 (List.mem_map.mpr ⟨pr, hpr, ?_⟩)
        rw [hmatch.1, hmatch.2, hkey0.1, hkey0.2]
      rw [hrest]
      rfl
    · rw [List.filter_cons_of_neg h0, List.find?_cons_of_neg _ h0]
      exact ih hnd.2

lemma joinPrice_eq_map (table : List ((String × Int × String) × ℚ × ℚ × ℚ))
    (prices : List PriceRow)
    (hnd : (prices.map fun pr => (pr.material, pr.po)).Nodup) :
    joinPrice table prices =
      table.map fun e => (e.1, e.2.2.2, lookupPrice prices e.1.1 e.1.2.1) := by
  induction table with
  | nil => rfl
  | cons e table ih =>
    rw [joinPrice, List.map_cons, ih]
    rw [filter_priceMatches_eq_find?_toList prices _ _ hnd]
    cases hf : prices.find? (priceMatches e.1.1 e.1.2.1) with
    | none => simp [lookupPrice, hf, Option.toList]
    | some pr => simp [lookupPrice, hf, Option.toList]

/-- C7: with a duplicate-free price lookup, every revenue row is its delta
row extended with the looked-up unit price (0 when the `(Material, PO)` key
is absent) and `Revenue = Delta * Unit_Price`; on the spec's example a row
with `Delta = 20` and unit price `5` yields revenue `100`, and a missing
price yields revenue `0`. -/
theorem revenue_correct :
    (∀ (newRows oldRows : List SnapRow) (prices : List PriceRow),
      (prices.map fun pr => (pr.material, pr.po)).Nodup →
      revenueRows newRows oldRows prices =
        (deltaTable newRows oldRows).map fun e =>
          (e.1, e.2.2.2, lookupPrice prices e.1.1 e.1.2.1,
            e.2.2.2 * lookupPrice prices e.1.1 e.1.2.1)) ∧
    revenueOfTable [(("P1", 1, "2024-01"), 100, 80, 20)]
        [PriceRow.mk "P1" (some 1) 5] =
      [(("P1", 1, "2024-01"), 20, 5, 100)] ∧
    revenueOfTable [(("P1", 1, "2024-01"), 100, 80, 20)] [] =
      [(("P1", 1, "2024-01"), 20, 0, 0)] := by
  refine ⟨?_, ?_, ?_⟩
  · intro newRows oldRows prices hnd
    rw [revenueRows, revenueOfTable, joinPrice_eq_map _ prices hnd, List.map_map]
    rfl
  · norm_num [revenueOfTable, joinPrice, priceMatches]
  · norm_num [revenueOfTable, joinPrice]

/-- C7 witness: the revenue table shape at a concrete duplicate-free price
lookup. -/
theorem revenue_correct_witness :
    revenueRows [SnapRow.mk "P1" (some 1) "2024-01" 100]
        [SnapRow.mk "P1" (some 1) "2024-01" 80] [PriceRow.mk "P1" (some 1) 5] =
      (deltaTable [SnapRow.mk "P1" (some 1) "2024-01" 100]
          [SnapRow.mk "P1" (some 1) "2024-01" 80]).map fun e =>
        (e.1, e.2.2.2,
          lookupPrice [PriceRow.mk "P1" (some 1) 5] e.1.1 e.1.2.1,
          e.2.2.2 * lookupPrice [PriceRow.mk "P1" (some 1) 5] e.1.1 e.1.2.1) :=
  revenue_correct.1 [SnapRow.mk "P1" (some 1) "2024-01" 100]
    [SnapRow.mk "P1" (some 1) "2024-01" 80] [PriceRow.mk "P1" (some 1) 5]
    (by decide)

/-- Lower-case a string, character by character (Python `str.lower` on the
ASCII headers involved). -/
def strLower (s : String) : String := ⟨s.data.map Char.toLower⟩

/-- Whether `pat` occurs as a contiguous substring (Python `in`). -/
def isSubchain (pat : List Char) : List Char → Bool
  | [] => pat.isEmpty
  | c :: rest => pat.isPrefixOf (c :: rest) || isSubchain pat rest

/-- The fuzzy Stat-Rel-Delivery-Date column test of `main.py` lines 336-339:
the lowered header contains `stat`, `del` and `date`. -/
def statRelColMatches (c : String) : Bool :=
  isSubchain "stat".data (strLower c).data &&
    isSubchain "del".data (strLower c).data &&
    isSubchain "date".data (strLower c).data

/-- Column detection of `main.py` lines 336-342: the first matching column,
or the `ValueError` when none matches. -/
def findStatRelCol (cols : List String) : Except String String :=
  match cols.filter statRelColMatches with
  | [] => Except.error "Missing Stat.-Rel. Del. Date column"
  | c :: _ => Except.ok c

/-- The `for df in [new_df, old_df]` column detection of the delta pipeline:
the new snapshot is examined first, then the old one; the first failure
aborts the computation with its error. -/
def deltaDateCols (newCols oldCols : List String) :
    Except String (String × String) :=
  match findStatRelCol newCols with
  | Except.error e => Except.error e
  | Except.ok nc =>
    match findStatRelCol oldCols with
    | Except.error e => Except.error e
    | Except.ok oc => Except.ok (nc, oc)

lemma findStatRelCol_error_of_none (cols : List String)
    (h : cols.all (fun c => ! statRelColMatches c) = true) :
    findStatRelCol cols = Except.error "Missing Stat.-Rel. Del. Date column" := by
  rw [List.all_eq_true] at h
  have hfil : cols.filter statRelColMatches = [] := by
    rw [List.filter_eq_nil_iff]
    intro c hc hmatch
    have := h c hc
    rw [hmatch] at this
    simp at this
  rw [findStatRelCol, hfil]

lemma findStatRelCol_error_msg (cols : List String) (e : String)
    (h : findStatRelCol cols = Except.error e) :
    e = "Missing Stat.-Rel. Del. Date column" := by
  rw [findStatRelCol] at h
  cases hfil : cols.filter statRelColMatches with
  | nil =>
    rw [hfil] at h
    injection h with h
    exact h.symm
  | cons c rest =>
    rw [hfil] at h
    cases h

/-- C8: when a snapshot (the new one or the old one) has no column whose
lowered header contains `stat`, `del` and `date`, the delta pipeline's
column detection fails with the generic value error
`Missing Stat.-Rel. Del. Date column`, which the pipeline returns unhandled. -/
theorem missing_stat_rel_col_error :
    (∀ (newCols oldCols : List String),
      newCols.all (fun c => ! statRelColMatches c) = true →
      deltaDateCols newCols oldCols =
        Except.error "Missing Stat.-Rel. Del. Date column") ∧
    (∀ (newCols oldCols : List String),
      oldCols.all (fun c => ! statRelColMatches c) = true →
      deltaDateCols newCols oldCols =
        Except.error "Missing Stat.-Rel. Del. Date column") := by
  constructor
  · intro newCols oldCols h
    rw [deltaDateCols, findStatRelCol_error_of_none newCols h]
  · intro newCols oldCols h
    rw [deltaDateCols]
    cases hn : findStatRelCol newCols with
    | error e =>
      rw [findStatRelCol_error_msg newCols e hn]
    | ok nc =>
      rw [findStatRelCol_error_of_none oldCols h]

/-- C8 witness: a snapshot with only `Material` and `Purchasing Document`
headers makes the pipeline fail with the value error. -/
theorem missing_stat_rel_col_error_witness :
    deltaDateCols ["Material", "Purchasing Document"]
        ["Stat.-Rel. Del. Date", "Material"] =
      Except.error "Missing Stat.-Rel. Del. Date column" :=
  missing_stat_rel_col_error.1 ["Material", "Purchasing Document"]
    ["Stat.-Rel. Del. Date", "Material"] (by decide)

end PagApi
